import Mathlib

/-!
# Nexus Pro — verification of the execution, risk-ledger and order-flow subsystems

Shallow embedding of the parts of the code base that the checked claims are
about:

* `src/core/order_executor.py` — `place_maker_order_with_chase`,
  `place_limit_order` / `get_order_status` / `place_market_order` (modelled
  through an environment oracle, since their results come from the exchange);
* `src/risk/risk_manager.py` — `RiskManager` state, `calculate_position_size`,
  `can_open_position`, `open_position`, `close_position`, `save_state`,
  `load_state`, with the SQLite tables modelled as in-memory keyed row lists;
* `src/ai/microstructure.py` — `MicrostructureAnalyzer.calculate_ofi` and
  `reset`;
* `src/main.py` — the orchestrator's open/close code paths, abstracted to
  their sequences of ledger mutations, persistence calls and suspension
  points.

Python floats are modelled as exact rationals (`ℚ`), Python ints as `ℕ`/`ℤ`,
dicts as insertion-ordered association lists with unique keys.
-/

namespace NexusPro

namespace OrderExecutor

/-- An exchange order as the executor sees it: the `orderId` of the returned
order dict, plus the limit price it was placed at (`'price'`).  Real orders
and the simulation-mode mock share this shape. -/
structure Order where
  orderId : Nat
  price : ℚ
deriving DecidableEq, Repr

/-- The poll loop of `place_maker_order_with_chase` (lines 157–169 of
`order_executor.py`): given the sequence of `get_order_status` answers that
fit inside the `timeout` window, the loop reports a fill exactly when a
`"FILLED"` answer arrives before any terminal `"CANCELED"`/`"EXPIRED"`/
`"REJECTED"` answer; running out of answers models the timeout expiring. -/
def pollLoop : List String → Bool
  | [] => false
  | s :: rest =>
    if s = "FILLED" then true
    else if s = "CANCELED" ∨ s = "EXPIRED" ∨ s = "REJECTED" then false
    else pollLoop rest

/-- The environment of one `place_maker_order_with_chase` call: what the
price callback, `place_limit_order`, the status polls and
`place_market_order` answer, indexed by the loop iteration `i` in which the
call is made. -/
structure ChaseEnv where
  /-- `price_provider_callback(symbol, side)` at iteration `i`; `none` models
  a falsy result (no book, or price `0.0`). -/
  bestPrice : Nat → Option ℚ
  /-- `place_limit_order` result at iteration `i` for the quoted price;
  `none` models a failed placement. -/
  limitOrder : Nat → ℚ → Option Order
  /-- the `get_order_status` answers observed during iteration `i` before the
  per-attempt timeout expires. -/
  statuses : Nat → List String
  /-- the `place_market_order` result, used only by the final fallback. -/
  marketResult : Option Order

/-- The terminal outcome of a chase call: a maker order observed `FILLED`,
or the value returned by the `place_market_order` fallback. -/
inductive ChaseOutcome where
  | filled (o : Order)
  | market (r : Option Order)
deriving DecidableEq, Repr

/-- A chase outcome instrumented with how the retry budget was spent:
`placements` counts the `place_limit_order` calls, `priceMisses` counts the
iterations in which the price callback returned nothing usable. -/
structure ChaseTrace where
  outcome : ChaseOutcome
  placements : Nat
  priceMisses : Nat
deriving DecidableEq, Repr

/-- One-to-one embedding of the `for i in range(max_retries)` loop body of
`place_maker_order_with_chase` (lines 137–182): fetch the best price
(`continue` on a falsy price), place a post-only limit order (`continue` on
failure), poll until fill/terminal/timeout, return the order when filled,
otherwise cancel and move to the next iteration; when the budget runs out,
fall through to `place_market_order`. -/
def chaseLoop (env : ChaseEnv) (i : Nat) : Nat → ChaseTrace
  | 0 => ⟨.market env.marketResult, 0, 0⟩
  | fuel + 1 =>
    match env.bestPrice i with
    | none =>
      let t := chaseLoop env (i + 1) fuel
      ⟨t.outcome, t.placements, t.priceMisses + 1⟩
    | some p =>
      match env.limitOrder i p with
      | none =>
        let t := chaseLoop env (i + 1) fuel
        ⟨t.outcome, t.placements + 1, t.priceMisses⟩
      | some o =>
        if pollLoop (env.statuses i) then ⟨.filled o, 1, 0⟩
        else
          let t := chaseLoop env (i + 1) fuel
          ⟨t.outcome, t.placements + 1, t.priceMisses⟩

/-- `place_maker_order_with_chase(symbol, side, qty, cb, max_retries)`,
as a function of the environment and the retry budget. -/
def place_maker_order_with_chase (env : ChaseEnv) (max_retries : Nat) : ChaseTrace :=
  chaseLoop env 0 max_retries

theorem chaseLoop_terminal (env : ChaseEnv) :
    ∀ fuel i,
      ((∃ j o, i ≤ j ∧ j < i + fuel ∧ (∃ p, env.bestPrice j = some p ∧
          env.limitOrder j p = some o) ∧ pollLoop (env.statuses j) = true ∧
          (chaseLoop env i fuel).outcome = .filled o) ∨
        (chaseLoop env i fuel).outcome = .market env.marketResult) ∧
      (chaseLoop env i fuel).placements ≤ fuel := by
  intro fuel
  induction fuel with
  | zero => intro i; exact ⟨Or.inr rfl, Nat.le_refl 0⟩
  | succ n ih =>
    intro i
    rcases h : env.bestPrice i with _ | p
    · have := ih (i + 1)
      constructor
      · rcases this.1 with ⟨j, o, hij, hjn, hcall, hfill, hout⟩ | hmkt
        · refine Or.inl ⟨j, o, Nat.le_of_succ_le hij, by omega, hcall, hfill, ?_⟩
          simp only [chaseLoop, h]
          exact hout
        · refine Or.inr ?_
          simp only [chaseLoop, h]
          exact hmkt
      · simp only [chaseLoop, h]
        exact Nat.le_succ_of_le this.2
    · rcases h2 : env.limitOrder i p with _ | o
      · have := ih (i + 1)
        constructor
        · rcases this.1 with ⟨j, o, hij, hjn, hcall, hfill, hout⟩ | hmkt
          · refine Or.inl ⟨j, o, Nat.le_of_succ_le hij, by omega, hcall, hfill, ?_⟩
            simp only [chaseLoop, h, h2]
            exact hout
          · refine Or.inr ?_
            simp only [chaseLoop, h, h2]
            exact hmkt
        · simp only [chaseLoop, h, h2]
          exact Nat.succ_le_succ this.2
      · by_cases hp : pollLoop (env.statuses i) = true
        · constructor
          · refine Or.inl ⟨i, o, Nat.le_refl i, by omega, ⟨p, h, h2⟩, hp, ?_⟩
            simp only [chaseLoop, h, h2, hp, if_true]
          · simp only [chaseLoop, h, h2, hp, if_true]
            omega
        · have := ih (i + 1)
          rw [Bool.not_eq_true] at hp
          constructor
          · rcases this.1 with ⟨j, o', hij, hjn, hcall, hfill, hout⟩ | hmkt
            · refine Or.inl ⟨j, o', Nat.le_of_succ_le hij, by omega, hcall, hfill, ?_⟩
              simp only [chaseLoop, h, h2, hp, Bool.false_eq_true, if_false]
              exact hout
            · refine Or.inr ?_
              simp only [chaseLoop, h, h2, hp, Bool.false_eq_true, if_false]
              exact hmkt
          · simp only [chaseLoop, h, h2, hp, Bool.false_eq_true, if_false]
            exact Nat.succ_le_succ this.2

/-- C1: every `place_maker_order_with_chase` invocation has exactly one
terminal outcome: either some iteration `j < max_retries` placed a limit
order that the poll loop observed `FILLED` and that order is returned, or the
call returns the result of the `place_market_order` fallback after the
`max_retries` budget is exhausted; the number of limit placements never
exceeds `max_retries`, and the routine itself never produces any outcome
other than these two. -/
theorem chase_terminal_outcome (env : ChaseEnv) (max_retries : Nat) :
    ((∃ j o, j < max_retries ∧ (∃ p, env.bestPrice j = some p ∧
        env.limitOrder j p = some o) ∧ pollLoop (env.statuses j) = true ∧
        (place_maker_order_with_chase env max_retries).outcome = .filled o) ∨
      (place_maker_order_with_chase env max_retries).outcome =
        .market env.marketResult) ∧
    (place_maker_order_with_chase env max_retries).placements ≤ max_retries := by
  have h := chaseLoop_terminal env max_retries 0
  constructor
  · rcases h.1 with ⟨j, o, _, hjn, hcall, hfill, hout⟩ | hmkt
    · exact Or.inl ⟨j, o, by omega, hcall, hfill, hout⟩
    · exact Or.inr hmkt
  · exact h.2

end OrderExecutor

namespace RiskManager

/-- Python `str.upper()`, character by character (the directions the code
compares are the ASCII strings `BUY`/`SELL`/`LONG`/`SHORT`). -/
def strUpper (s : String) : String :=
  ⟨s.data.map Char.toUpper⟩

/-- `Position` dataclass of `risk_manager.py`.  `entry_time` is a
`datetime`; since `datetime.isoformat` / `datetime.fromisoformat` form a
bijection, the model identifies a datetime with its serialised value and
represents both by a natural number. -/
structure Position where
  symbol : String
  direction : String
  entry_price : ℚ
  quantity : ℚ
  stop_loss : ℚ
  take_profit : ℚ
  entry_time : ℕ
  pnl : ℚ := 0
deriving DecidableEq, Repr

/-- `DailyStats` dataclass of `risk_manager.py`. -/
structure DailyStats where
  date : String
  total_trades : ℕ := 0
  wins : ℕ := 0
  losses : ℕ := 0
  total_pnl : ℚ := 0
  max_drawdown : ℚ := 0
  current_drawdown : ℚ := 0
deriving DecidableEq, Repr

/-- The configurable limits held by `RiskManager.__init__` (constructor
defaults shown). -/
structure RiskConfig where
  max_position_size : ℚ := 2 / 100
  max_open_positions : ℕ := 5
  max_daily_drawdown : ℚ := 1 / 10
  default_sl_percent : ℚ := 1
  default_tp_percent : ℚ := 2
deriving DecidableEq, Repr

/-- Python-dict assignment `m[k] = v` on an insertion-ordered association
list: an existing binding is overwritten in place, a new key is appended. -/
def dictInsert {α : Type} (m : List (String × α)) (k : String) (v : α) :
    List (String × α) :=
  match m with
  | [] => [(k, v)]
  | (k', v') :: rest =>
    if k' = k then (k, v) :: rest else (k', v') :: dictInsert rest k v

/-- Python-dict lookup `m.get(k)` / `k in m`. -/
def dictGet? {α : Type} (m : List (String × α)) (k : String) : Option α :=
  (m.find? (fun kv => kv.1 == k)).map (fun kv => kv.2)

/-- Python-dict deletion `del m[k]` (removes the unique binding of `k`). -/
def dictErase {α : Type} (m : List (String × α)) (k : String) :
    List (String × α) :=
  m.eraseP (fun kv => kv.1 == k)

/-- In-memory `RiskManager` state: `open_positions` (a dict keyed by
symbol), `daily_stats`, `is_paused`, and whether `self.conn` is live. -/
structure RMState where
  open_positions : List (String × Position)
  daily_stats : DailyStats
  is_paused : Bool
  conn : Bool
deriving DecidableEq, Repr

/-- `RiskManager.__init__` state for a given current date (before
`init_db`, so `conn` is absent). -/
def initRMState (today : String) : RMState :=
  { open_positions := [], daily_stats := { date := today }, is_paused := false,
    conn := false }

/-- `calculate_position_size(account_balance, entry_price, stop_loss,
confidence)` (lines 237–252): risk amount scaled by confidence, divided by
the stop distance (with a `default_sl_percent` fallback when the distance is
zero), capped at 10% of balance worth of quantity. -/
def calculate_position_size (cfg : RiskConfig) (account_balance entry_price
    stop_loss confidence : ℚ) : ℚ :=
  let risk_amount := account_balance * cfg.max_position_size * confidence
  let sl_distance := |entry_price - stop_loss|
  let sl_distance :=
    if sl_distance = 0 then entry_price * (cfg.default_sl_percent / 100)
    else sl_distance
  let position_size := risk_amount / sl_distance
  let max_qty := account_balance * (1 / 10) / entry_price
  min position_size max_qty

/-- The rejection reasons `can_open_position` can report (the code returns
Turkish message strings; their exact formatting is irrelevant to the claims,
so they are modelled by this enumeration). -/
inductive Reason where
  | paused
  | maxPositions
  | alreadyOpen
  | drawdownLimit
  | ok
deriving DecidableEq, Repr

/-- `can_open_position(symbol)` (lines 254–273): rejects when paused, when
the open-position count reached the cap, when the symbol already has a
position, or when today's drawdown reached the ceiling — the last check also
sets `is_paused` as a side effect.  Returns the `(bool, reason)` pair and
the possibly updated state. -/
def can_open_position (cfg : RiskConfig) (s : RMState) (symbol : String) :
    (Bool × Reason) × RMState :=
  if s.is_paused then ((false, .paused), s)
  else if cfg.max_open_positions ≤ s.open_positions.length then
    ((false, .maxPositions), s)
  else if (dictGet? s.open_positions symbol).isSome then
    ((false, .alreadyOpen), s)
  else if cfg.max_daily_drawdown ≤ s.daily_stats.current_drawdown then
    ((false, .drawdownLimit), { s with is_paused := true })
  else ((true, .ok), s)

/-- `open_position(symbol, direction, entry_price, quantity, stop_loss,
take_profit)` (lines 275–288); `now` is the `datetime.now()` value. -/
def open_position (s : RMState) (symbol direction : String)
    (entry_price quantity stop_loss take_profit : ℚ) (now : ℕ) : RMState :=
  let pos : Position :=
    { symbol := symbol, direction := direction, entry_price := entry_price,
      quantity := quantity, stop_loss := stop_loss,
      take_profit := take_profit, entry_time := now }
  { s with open_positions := dictInsert s.open_positions symbol pos }

/-- `close_position(symbol, exit_price)` (lines 295–324): no-op when the
symbol has no open position; otherwise computes the pnl by direction,
bumps trade/win/loss counters and pnl, adds `|pnl|/1000` to the current
drawdown on a losing trade (raising `max_drawdown` if exceeded), and deletes
the position. -/
def close_position (s : RMState) (symbol : String) (exit_price : ℚ) :
    RMState :=
  match dictGet? s.open_positions symbol with
  | none => s
  | some pos =>
    let pnl :=
      if strUpper pos.direction = "BUY" ∨ strUpper pos.direction = "LONG" then
        (exit_price - pos.entry_price) * pos.quantity
      else (pos.entry_price - exit_price) * pos.quantity
    let ds := s.daily_stats
    let ds := { ds with total_trades := ds.total_trades + 1,
                        total_pnl := ds.total_pnl + pnl }
    let ds :=
      if 0 < pnl then { ds with wins := ds.wins + 1 }
      else { ds with losses := ds.losses + 1 }
    let ds :=
      if pnl < 0 then
        let cd := ds.current_drawdown + |pnl| / 1000
        { ds with current_drawdown := cd,
                  max_drawdown :=
                    if ds.max_drawdown < cd then cd else ds.max_drawdown }
      else ds
    { s with daily_stats := ds,
             open_positions := dictErase s.open_positions symbol }

/-- A row of the `daily_stats` SQLite table (`date` is the primary key;
`is_paused` is stored as an INTEGER `1 if self.is_paused else 0`). -/
structure DailyRow where
  date : String
  total_trades : ℕ
  wins : ℕ
  losses : ℕ
  total_pnl : ℚ
  max_drawdown : ℚ
  current_drawdown : ℚ
  is_paused : ℕ
deriving DecidableEq, Repr

/-- A row of the `open_positions` SQLite table (`symbol` is the primary
key; `entry_time` is the ISO-serialised datetime, identified with the
datetime value itself). -/
structure PosRow where
  symbol : String
  direction : String
  entry_price : ℚ
  quantity : ℚ
  stop_loss : ℚ
  take_profit : ℚ
  entry_time : ℕ
  pnl : ℚ
deriving DecidableEq, Repr

/-- The `risk.db` database: both tables as row lists. -/
structure DB where
  daily_stats : List DailyRow
  open_positions : List PosRow
deriving DecidableEq, Repr

/-- The empty database created by `init_db`. -/
def initDB : DB := { daily_stats := [], open_positions := [] }

/-- The `daily_stats` row `save_state` writes for the in-memory state. -/
def dailyRowOf (ds : DailyStats) (paused : Bool) : DailyRow :=
  { date := ds.date, total_trades := ds.total_trades, wins := ds.wins,
    losses := ds.losses, total_pnl := ds.total_pnl,
    max_drawdown := ds.max_drawdown,
    current_drawdown := ds.current_drawdown,
    is_paused := if paused then 1 else 0 }

/-- The `open_positions` row `save_state` writes for one `Position`. -/
def posRowOf (p : Position) : PosRow :=
  { symbol := p.symbol, direction := p.direction,
    entry_price := p.entry_price, quantity := p.quantity,
    stop_loss := p.stop_loss, take_profit := p.take_profit,
    entry_time := p.entry_time, pnl := p.pnl }

/-- The `Position` that `load_state` rebuilds from a row. -/
def posOfRow (r : PosRow) : Position :=
  { symbol := r.symbol, direction := r.direction,
    entry_price := r.entry_price, quantity := r.quantity,
    stop_loss := r.stop_loss, take_profit := r.take_profit,
    entry_time := r.entry_time, pnl := r.pnl }

/-- `INSERT OR REPLACE` into `daily_stats`, keyed on `date`. -/
def upsertDaily (t : List DailyRow) (r : DailyRow) : List DailyRow :=
  match t with
  | [] => [r]
  | r' :: rest =>
    if r'.date = r.date then r :: rest else r' :: upsertDaily rest r

/-- `save_state()` (lines 132–168): no-op without a connection; otherwise
upserts today's `daily_stats` row and rewrites the `open_positions` table
(DELETE all, then INSERT one row per in-memory position). -/
def save_state (s : RMState) (db : DB) : DB :=
  if s.conn then
    { daily_stats := upsertDaily db.daily_stats
        (dailyRowOf s.daily_stats s.is_paused),
      open_positions := s.open_positions.map (fun kv => posRowOf kv.2) }
  else db

/-- `load_state()` (lines 170–221): no-op without a connection; otherwise
reads today's `daily_stats` row (fresh `DailyStats` when absent, with
`is_paused` untouched) and rebuilds the `open_positions` dict keyed by each
row's symbol. -/
def load_state (s : RMState) (db : DB) (today : String) : RMState :=
  if s.conn then
    let s1 :=
      match db.daily_stats.find? (fun r => r.date == today) with
      | some row =>
        { s with
            daily_stats :=
              { date := row.date, total_trades := row.total_trades,
                wins := row.wins, losses := row.losses,
                total_pnl := row.total_pnl,
                max_drawdown := row.max_drawdown,
                current_drawdown := row.current_drawdown },
            is_paused := row.is_paused ≠ 0 }
      | none => { s with daily_stats := { date := today } }
    { s1 with
        open_positions :=
          db.open_positions.foldl
            (fun m r => dictInsert m r.symbol (posOfRow r)) [] }
  else s

/-- C7: for positive balance and entry and confidence in `[0,1]`,
`calculate_position_size` returns
`min ((balance * max_position_size * confidence) / d, 0.1 * balance / entry)`
where `d` is `|entry - stop|` for `entry ≠ stop` and
`entry * default_sl_percent / 100` for `entry = stop`; in particular the
result never exceeds `0.1 * balance / entry`. -/
theorem position_size_formula (cfg : RiskConfig)
    (balance entry stop confidence : ℚ) (hb : 0 < balance) (he : 0 < entry)
    (hc0 : 0 ≤ confidence) (hc1 : confidence ≤ 1) :
    calculate_position_size cfg balance entry stop confidence =
      min ((balance * cfg.max_position_size * confidence) /
            (if entry = stop then entry * (cfg.default_sl_percent / 100)
             else |entry - stop|))
          (1 / 10 * balance / entry) ∧
    calculate_position_size cfg balance entry stop confidence ≤
      1 / 10 * balance / entry := by
  have hd : (|entry - stop| = 0) = (entry = stop) := by
    simp [abs_eq_zero, sub_eq_zero]
  constructor
  · simp only [calculate_position_size, hd]
    ring_nf
  · simp only [calculate_position_size]
    have : balance * (1 / 10) / entry = 1 / 10 * balance / entry := by ring
    rw [this]
    exact min_le_right _ _

/-- Witness for `position_size_formula` at balance `1000`, entry `100`,
stop `95`, confidence `7/10`, default configuration. -/
theorem position_size_formula_witness :
    (0 : ℚ) < 1000 ∧ (0 : ℚ) < 100 ∧ (0 : ℚ) ≤ 7 / 10 ∧ (7 : ℚ) / 10 ≤ 1 ∧
    (calculate_position_size {} 1000 100 95 (7 / 10) =
      min ((1000 * (({} : RiskConfig).max_position_size) * (7 / 10)) /
            (if (100 : ℚ) = 95 then
               100 * (({} : RiskConfig).default_sl_percent / 100)
             else |(100 : ℚ) - 95|))
          (1 / 10 * 1000 / 100) ∧
      calculate_position_size {} 1000 100 95 (7 / 10) ≤ 1 / 10 * 1000 / 100) :=
  ⟨by norm_num, by norm_num, by norm_num, by norm_num,
    position_size_formula {} 1000 100 95 (7 / 10) (by norm_num) (by norm_num)
      (by norm_num) (by norm_num)⟩

/-- C10: `close_position` on a symbol with no open position leaves the
whole state — positions, trade/win/loss counts, pnl and both drawdown
fields — unchanged, for every exit price. -/
theorem close_position_absent_noop (s : RMState) (symbol : String)
    (exit_price : ℚ) (h : dictGet? s.open_positions symbol = none) :
    close_position s symbol exit_price = s := by
  simp only [close_position, h]

/-- Witness for `close_position_absent_noop`: closing `ETHUSDT` at price
`123` in a state holding only a `BTCUSDT` position. -/
theorem close_position_absent_noop_witness :
    dictGet?
        ([("BTCUSDT",
            ({ symbol := "BTCUSDT", direction := "BUY", entry_price := 100,
               quantity := 1, stop_loss := 95, take_profit := 110,
               entry_time := 0 } : Position))]) "ETHUSDT" = none ∧
    close_position
        { open_positions :=
            [("BTCUSDT",
              { symbol := "BTCUSDT", direction := "BUY", entry_price := 100,
                quantity := 1, stop_loss := 95, take_profit := 110,
                entry_time := 0 })],
          daily_stats := { date := "2026-10-12" }, is_paused := false,
          conn := true } "ETHUSDT" 123 =
      { open_positions :=
          [("BTCUSDT",
            { symbol := "BTCUSDT", direction := "BUY", entry_price := 100,
              quantity := 1, stop_loss := 95, take_profit := 110,
              entry_time := 0 })],
        daily_stats := { date := "2026-10-12" }, is_paused := false,
        conn := true } :=
  ⟨by decide,
    close_position_absent_noop
      { open_positions :=
          [("BTCUSDT",
            { symbol := "BTCUSDT", direction := "BUY", entry_price := 100,
              quantity := 1, stop_loss := 95, take_profit := 110,
              entry_time := 0 })],
        daily_stats := { date := "2026-10-12" }, is_paused := false,
        conn := true } "ETHUSDT" 123 (by decide)⟩

theorem find?_upsertDaily (t : List DailyRow) (r : DailyRow) :
    (upsertDaily t r).find? (fun x => x.date == r.date) = some r := by
  induction t with
  | nil => simp [upsertDaily, List.find?]
  | cons r' rest ih =>
    by_cases h : r'.date = r.date
    · simp [upsertDaily, h, List.find?]
    · simp only [upsertDaily, h, if_false]
      rw [List.find?_cons_of_neg _ (by simpa using h)]
      exact ih

theorem dictInsert_of_not_mem {α : Type} (m : List (String × α)) (k : String)
    (v : α) (h : k ∉ m.map Prod.fst) : dictInsert m k v = m ++ [(k, v)] := by
  induction m with
  | nil => rfl
  | cons kv rest ih =>
    obtain ⟨k', v'⟩ := kv
    simp only [List.map_cons, List.mem_cons, not_or] at h
    have hne : k' ≠ k := fun hc => h.1 hc.symm
    simp only [dictInsert, hne, if_false, List.cons_append, List.cons.injEq,
      true_and]
    exact ih h.2

theorem foldl_dictInsert_rebuild (l : List (String × Position)) :
    ∀ acc : List (String × Position),
      (∀ kv ∈ l, kv.2.symbol = kv.1) → (l.map Prod.fst).Nodup →
      (∀ kv ∈ l, kv.1 ∉ acc.map Prod.fst) →
      List.foldl (fun m r => dictInsert m r.symbol (posOfRow r)) acc
        (l.map (fun kv => posRowOf kv.2)) = acc ++ l := by
  induction l with
  | nil => intro acc _ _ _; simp
  | cons kv rest ih =>
    intro acc hkeys hnodup hdisj
    obtain ⟨k, p⟩ := kv
    have hk : p.symbol = k := hkeys (k, p) (List.mem_cons_self _ _)
    simp only [List.map_cons, List.foldl_cons]
    have hins : dictInsert acc (posRowOf p).symbol (posOfRow (posRowOf p)) =
        acc ++ [(k, p)] := by
      have : (posRowOf p).symbol = k := hk
      rw [this]
      exact dictInsert_of_not_mem acc k p (hdisj (k, p) (List.mem_cons_self _ _))
    rw [hins]
    have hrest := ih (acc ++ [(k, p)])
      (fun kv h => hkeys kv (List.mem_cons_of_mem _ h))
      (by
        simp only [List.map_cons, List.nodup_cons] at hnodup
        exact hnodup.2)
      (by
        intro kv hm
        simp only [List.map_append, List.map_cons, List.map_nil,
          List.mem_append, List.mem_singleton, not_or]
        refine ⟨fun hc => hdisj kv (List.mem_cons_of_mem _ hm) hc, ?_⟩
        intro hc
        simp only [List.map_cons, List.nodup_cons] at hnodup
        exact hnodup.1 (hc ▸ List.mem_map_of_mem Prod.fst hm))
    rw [hrest, List.append_assoc]
    rfl

/-- C3: with a live connection, `save_state` followed by `load_state` on the
same calendar date reproduces the open-position map (all fields of every
position), the `DailyStats` row for the current date, and the paused flag.
The hypotheses state the structural facts that hold of a Python dict keyed
by symbol: bindings carry their own key, and keys are unique. -/
theorem save_load_roundtrip (s : RMState) (db : DB) (today : String)
    (hconn : s.conn = true) (hdate : s.daily_stats.date = today)
    (hkeys : ∀ kv ∈ s.open_positions, kv.2.symbol = kv.1)
    (hnodup : (s.open_positions.map Prod.fst).Nodup) :
    (load_state s (save_state s db) today).open_positions =
      s.open_positions ∧
    (load_state s (save_state s db) today).daily_stats = s.daily_stats ∧
    (load_state s (save_state s db) today).is_paused = s.is_paused := by
  have hfind : (save_state s db).daily_stats.find? (fun r => r.date == today) =
      some (dailyRowOf s.daily_stats s.is_paused) := by
    simp only [save_state, hconn, if_true]
    have : (dailyRowOf s.daily_stats s.is_paused).date = today := hdate
    rw [← this]
    exact find?_upsertDaily db.daily_stats (dailyRowOf s.daily_stats s.is_paused)
  have hpos : (save_state s db).open_positions =
      s.open_positions.map (fun kv => posRowOf kv.2) := by
    simp only [save_state, hconn, if_true]
  refine ⟨?_, ?_, ?_⟩
  · simp only [load_state, hconn, if_true, hfind, hpos]
    exact foldl_dictInsert_rebuild s.open_positions [] hkeys hnodup
      (by intro kv _; simp)
  · simp only [load_state, hconn, if_true, hfind, dailyRowOf]
  · simp only [load_state, hconn, if_true, hfind, dailyRowOf]
    cases s.is_paused <;> simp

/-- Witness for `save_load_roundtrip`: a state holding one `BTCUSDT`
position and a nontrivial stats row, on date `2026-10-12`, persisted into an
arbitrary nonempty database. -/
theorem save_load_roundtrip_witness :
    (load_state
        { open_positions :=
            [("BTCUSDT",
              { symbol := "BTCUSDT", direction := "BUY", entry_price := 100,
                quantity := 1, stop_loss := 95, take_profit := 110,
                entry_time := 7 })],
          daily_stats :=
            { date := "2026-10-12", total_trades := 3, wins := 2,
              losses := 1, total_pnl := 5, max_drawdown := 1 / 100,
              current_drawdown := 1 / 200 },
          is_paused := false, conn := true }
        (save_state
          { open_positions :=
              [("BTCUSDT",
                { symbol := "BTCUSDT", direction := "BUY",
                  entry_price := 100, quantity := 1, stop_loss := 95,
                  take_profit := 110, entry_time := 7 })],
            daily_stats :=
              { date := "2026-10-12", total_trades := 3, wins := 2,
                losses := 1, total_pnl := 5, max_drawdown := 1 / 100,
                current_drawdown := 1 / 200 },
            is_paused := false, conn := true }
          { daily_stats :=
              [{ date := "2026-10-11", total_trades := 9, wins := 4,
                 losses := 5, total_pnl := -3, max_drawdown := 2 / 100,
                 current_drawdown := 2 / 100, is_paused := 1 }],
            open_positions := [] })
        "2026-10-12").open_positions =
      [("BTCUSDT",
        { symbol := "BTCUSDT", direction := "BUY", entry_price := 100,
          quantity := 1, stop_loss := 95, take_profit := 110,
          entry_time := 7 })] := by
  have h := save_load_roundtrip
    { open_positions :=
        [("BTCUSDT",
          { symbol := "BTCUSDT", direction := "BUY", entry_price := 100,
            quantity := 1, stop_loss := 95, take_profit := 110,
            entry_time := 7 })],
      daily_stats :=
        { date := "2026-10-12", total_trades := 3, wins := 2, losses := 1,
          total_pnl := 5, max_drawdown := 1 / 100,
          current_drawdown := 1 / 200 },
      is_paused := false, conn := true }
    { daily_stats :=
        [{ date := "2026-10-11", total_trades := 9, wins := 4, losses := 5,
           total_pnl := -3, max_drawdown := 2 / 100,
           current_drawdown := 2 / 100, is_paused := 1 }],
      open_positions := [] }
    "2026-10-12" (by decide) (by decide) (by decide) (by decide)
  exact h.1

/-- The in-memory `RiskManager` operations invoked by the orchestrator
during a trading day (`save_state` is omitted here because it does not touch
the in-memory state). -/
inductive TradeOp where
  | canOpen (symbol : String)
  | openPos (symbol direction : String)
      (entry_price quantity stop_loss take_profit : ℚ) (now : ℕ)
  | closePos (symbol : String) (exit_price : ℚ)
deriving DecidableEq, Repr

/-- Applying one in-memory operation. -/
def applyTradeOp (cfg : RiskConfig) (s : RMState) : TradeOp → RMState
  | .canOpen symbol => (can_open_position cfg s symbol).2
  | .openPos symbol direction e q sl tp now =>
    open_position s symbol direction e q sl tp now
  | .closePos symbol p => close_position s symbol p

/-- Applying a sequence of in-memory operations. -/
def applyTradeOps (cfg : RiskConfig) (s : RMState) (ops : List TradeOp) :
    RMState :=
  ops.foldl (applyTradeOp cfg) s

theorem can_open_position_of_paused (cfg : RiskConfig) (t : RMState)
    (symbol : String) (h : t.is_paused = true) :
    can_open_position cfg t symbol = ((false, Reason.paused), t) := by
  simp [can_open_position, h]

theorem applyTradeOp_paused (cfg : RiskConfig) (s : RMState) (op : TradeOp)
    (h : s.is_paused = true) : (applyTradeOp cfg s op).is_paused = true := by
  cases op with
  | canOpen symbol => simp [applyTradeOp, can_open_position, h]
  | openPos symbol direction e q sl tp now =>
    simpa [applyTradeOp, open_position] using h
  | closePos symbol p =>
    rcases hp : dictGet? s.open_positions symbol with _ | pos
    · simpa [applyTradeOp, close_position, hp] using h
    · simpa [applyTradeOp, close_position, hp] using h

theorem applyTradeOps_paused (cfg : RiskConfig) (ops : List TradeOp) :
    ∀ s : RMState, s.is_paused = true →
      (applyTradeOps cfg s ops).is_paused = true := by
  induction ops with
  | nil => intro s h; exact h
  | cons op rest ih =>
    intro s h
    exact ih (applyTradeOp cfg s op) (applyTradeOp_paused cfg s op h)

/-- C4: in a not-yet-paused state whose drawdown has reached the ceiling
(and which is not otherwise blocked), `can_open_position` rejects with the
drawdown reason and sets the paused flag; after any further sequence of
in-memory operations — including closes that change the drawdown — the flag
is still set and every `can_open_position` call for any symbol rejects with
the paused reason; moreover any paused state whatsoever is rejected, no
matter how small its current drawdown, so a later drawdown decrease cannot
lift the pause. -/
theorem pause_sticky (cfg : RiskConfig) (s : RMState) (symbol sym2 : String)
    (ops : List TradeOp) (hn : s.is_paused = false)
    (hlen : s.open_positions.length < cfg.max_open_positions)
    (hsym : dictGet? s.open_positions symbol = none)
    (hdd : cfg.max_daily_drawdown ≤ s.daily_stats.current_drawdown) :
    (can_open_position cfg s symbol).1 = (false, Reason.drawdownLimit) ∧
    (can_open_position cfg s symbol).2.is_paused = true ∧
    (applyTradeOps cfg (can_open_position cfg s symbol).2 ops).is_paused =
      true ∧
    (can_open_position cfg
        (applyTradeOps cfg (can_open_position cfg s symbol).2 ops) sym2).1 =
      (false, Reason.paused) ∧
    (∀ t : RMState, t.is_paused = true →
      (can_open_position cfg t sym2).1 = (false, Reason.paused)) := by
  have hstep : can_open_position cfg s symbol =
      ((false, Reason.drawdownLimit), { s with is_paused := true }) := by
    simp [can_open_position, hn, Nat.not_le.mpr hlen, hsym, hdd]
  have hpaused : (can_open_position cfg s symbol).2.is_paused = true := by
    rw [hstep]
  have hops := applyTradeOps_paused cfg ops (can_open_position cfg s symbol).2
    hpaused
  refine ⟨by rw [hstep], hpaused, hops, ?_, ?_⟩
  · rw [can_open_position_of_paused cfg _ sym2 hops]
  · intro t ht
    rw [can_open_position_of_paused cfg t sym2 ht]

/-- Witness for `pause_sticky`: default limits, a position-free state with
drawdown exactly at the `10%` ceiling, followed by a losing close and
another gate query. -/
theorem pause_sticky_witness :
    (({} : RiskConfig).max_open_positions > 0 ∧
      dictGet? ([] : List (String × Position)) "BTCUSDT" = none) ∧
    (can_open_position {}
        { open_positions := [],
          daily_stats := { date := "2026-10-12", current_drawdown := 1 / 10 },
          is_paused := false, conn := true } "BTCUSDT").1 =
      (false, Reason.drawdownLimit) ∧
    (can_open_position {}
        (applyTradeOps {}
          (can_open_position {}
            { open_positions := [],
              daily_stats :=
                { date := "2026-10-12", current_drawdown := 1 / 10 },
              is_paused := false, conn := true } "BTCUSDT").2
          [TradeOp.closePos "ETHUSDT" 5, TradeOp.canOpen "ETHUSDT"])
        "ETHUSDT").1 = (false, Reason.paused) := by
  have h := pause_sticky {}
    { open_positions := [],
      daily_stats := { date := "2026-10-12", current_drawdown := 1 / 10 },
      is_paused := false, conn := true } "BTCUSDT" "ETHUSDT"
    [TradeOp.closePos "ETHUSDT" 5, TradeOp.canOpen "ETHUSDT"]
    (by decide) (by decide) (by decide) (by norm_num)
  exact ⟨⟨by decide, by decide⟩, h.1, h.2.2.2.1⟩

/-- The full set of `RiskManager` operations, including persistence. -/
inductive RMOp where
  | canOpen (symbol : String)
  | openPos (symbol direction : String)
      (entry_price quantity stop_loss take_profit : ℚ) (now : ℕ)
  | closePos (symbol : String) (exit_price : ℚ)
  | save
  | load
deriving DecidableEq, Repr

/-- Combined in-memory plus database state. -/
structure SysState where
  rm : RMState
  db : DB
deriving DecidableEq, Repr

/-- Applying one operation to the combined state (`today` is the current
calendar date used by `load_state`). -/
def stepOp (cfg : RiskConfig) (today : String) (st : SysState) :
    RMOp → SysState
  | .canOpen symbol => { st with rm := (can_open_position cfg st.rm symbol).2 }
  | .openPos symbol direction e q sl tp now =>
    { st with rm := open_position st.rm symbol direction e q sl tp now }
  | .closePos symbol p => { st with rm := close_position st.rm symbol p }
  | .save => { st with db := save_state st.rm st.db }
  | .load => { st with rm := load_state st.rm st.db today }

/-- Applying a sequence of operations. -/
def runOps (cfg : RiskConfig) (today : String) (st : SysState)
    (ops : List RMOp) : SysState :=
  ops.foldl (stepOp cfg today) st

/-- Well-formedness of the open-position dict: unique symbols, and each
binding carries its own key. -/
def positionsWF (m : List (String × Position)) : Prop :=
  (m.map Prod.fst).Nodup ∧ ∀ kv ∈ m, kv.2.symbol = kv.1

/-- The trade-count identity of the claim. -/
def statsWF (ds : DailyStats) : Prop :=
  ds.total_trades = ds.wins + ds.losses

/-- Every persisted `daily_stats` row satisfies the trade-count identity. -/
def dbWF (db : DB) : Prop :=
  ∀ r ∈ db.daily_stats, r.total_trades = r.wins + r.losses

/-- The ledger invariant of the claim, over the combined state. -/
def ledgerInv (st : SysState) : Prop :=
  positionsWF st.rm.open_positions ∧ statsWF st.rm.daily_stats ∧ dbWF st.db

/-- Fresh combined state: `__init__` memory plus an empty database. -/
def initSys (today : String) : SysState :=
  { rm := initRMState today, db := initDB }

theorem mem_of_mem_dictInsert {α : Type} (m : List (String × α)) (k : String)
    (v : α) (kv : String × α) (h : kv ∈ dictInsert m k v) :
    kv = (k, v) ∨ kv ∈ m := by
  induction m with
  | nil => simpa [dictInsert] using h
  | cons kv' rest ih =>
    obtain ⟨k', v'⟩ := kv'
    by_cases hk : k' = k
    · simp only [dictInsert, hk, if_true, List.mem_cons] at h
      rcases h with h | h
      · exact Or.inl h
      · exact Or.inr (List.mem_cons_of_mem _ h)
    · simp only [dictInsert, hk, if_false, List.mem_cons] at h
      rcases h with h | h
      · exact Or.inr (by simp [h])
      · rcases ih h with h' | h'
        · exact Or.inl h'
        · exact Or.inr (List.mem_cons_of_mem _ h')

theorem nodup_keys_dictInsert {α : Type} (m : List (String × α)) (k : String)
    (v : α) (h : (m.map Prod.fst).Nodup) :
    ((dictInsert m k v).map Prod.fst).Nodup := by
  induction m with
  | nil => simp [dictInsert]
  | cons kv' rest ih =>
    obtain ⟨k', v'⟩ := kv'
    simp only [List.map_cons, List.nodup_cons] at h
    by_cases hk : k' = k
    · simp only [dictInsert, hk, if_true, List.map_cons, List.nodup_cons]
      exact ⟨hk ▸ h.1, h.2⟩
    · simp only [dictInsert, hk, if_false, List.map_cons, List.nodup_cons]
      refine ⟨?_, ih h.2⟩
      intro hc
      rcases List.mem_map.1 hc with ⟨kv, hm, hfst⟩
      rcases mem_of_mem_dictInsert rest k v kv hm with h' | h'
      · exact hk (by rw [← hfst, h'])
      · exact h.1 (hfst ▸ List.mem_map_of_mem Prod.fst h')

theorem positionsWF_dictInsert (m : List (String × Position)) (k : String)
    (v : Position) (h : positionsWF m) (hv : v.symbol = k) :
    positionsWF (dictInsert m k v) := by
  refine ⟨nodup_keys_dictInsert m k v h.1, ?_⟩
  intro kv hm
  rcases mem_of_mem_dictInsert m k v kv hm with h' | h'
  · rw [h']; exact hv
  · exact h.2 kv h'

theorem positionsWF_dictErase (m : List (String × Position)) (k : String)
    (h : positionsWF m) : positionsWF (dictErase m k) := by
  have hsub : List.Sublist (dictErase m k) m := List.eraseP_sublist m
  exact ⟨h.1.sublist (hsub.map Prod.fst), fun kv hm => h.2 kv (hsub.subset hm)⟩

theorem positionsWF_foldl_rows (rows : List PosRow) :
    ∀ acc : List (String × Position), positionsWF acc →
      positionsWF (rows.foldl
        (fun m r => dictInsert m r.symbol (posOfRow r)) acc) := by
  induction rows with
  | nil => intro acc h; exact h
  | cons r rest ih =>
    intro acc h
    exact ih _ (positionsWF_dictInsert acc r.symbol (posOfRow r) h rfl)

theorem mem_of_mem_upsertDaily (t : List DailyRow) (r x : DailyRow)
    (h : x ∈ upsertDaily t r) : x = r ∨ x ∈ t := by
  induction t with
  | nil => simpa [upsertDaily] using h
  | cons r' rest ih =>
    by_cases hk : r'.date = r.date
    · simp only [upsertDaily, hk, if_true, List.mem_cons] at h
      rcases h with h | h
      · exact Or.inl h
      · exact Or.inr (List.mem_cons_of_mem _ h)
    · simp only [upsertDaily, hk, if_false, List.mem_cons] at h
      rcases h with h | h
      · exact Or.inr (by simp [h])
      · rcases ih h with h' | h'
        · exact Or.inl h'
        · exact Or.inr (List.mem_cons_of_mem _ h')

theorem close_position_effects (s : RMState) (symbol : String) (p : ℚ)
    (h : statsWF s.daily_stats) :
    statsWF (close_position s symbol p).daily_stats ∧
    s.daily_stats.current_drawdown ≤
      (close_position s symbol p).daily_stats.current_drawdown := by
  rcases hp : dictGet? s.open_positions symbol with _ | pos
  · exact ⟨by simpa [close_position, hp] using h, by simp [close_position, hp]⟩
  · simp only [close_position, hp]
    constructor
    · simp only [statsWF] at h ⊢
      split_ifs <;> simp <;> omega
    · split_ifs <;> simp <;> positivity

/-- A combined state holding one `BTCUSDT` long and a zero-drawdown stats
row for 2026-10-12, about to be persisted. -/
def staleSnapshotStart : SysState :=
  { rm :=
      { open_positions :=
          [("BTCUSDT",
            { symbol := "BTCUSDT", direction := "BUY", entry_price := 100,
              quantity := 1, stop_loss := 95, take_profit := 110,
              entry_time := 0 })],
        daily_stats := { date := "2026-10-12" }, is_paused := false,
        conn := true },
    db := initDB }

/-- C5 counterexample: on a single calendar date, the trace
save → losing close → load makes `current_drawdown` go from `1/100` back
down to `0` (the persisted snapshot predates the close), so the claimed
within-day monotonicity is not preserved by `load_state`. -/
theorem load_state_drawdown_decrease :
    (runOps {} "2026-10-12" staleSnapshotStart
        [RMOp.save,
          RMOp.closePos "BTCUSDT" 90]).rm.daily_stats.current_drawdown =
      1 / 100 ∧
    (runOps {} "2026-10-12" staleSnapshotStart
        [RMOp.save, RMOp.closePos "BTCUSDT" 90,
          RMOp.load]).rm.daily_stats.current_drawdown = 0 ∧
    (runOps {} "2026-10-12" staleSnapshotStart
        [RMOp.save, RMOp.closePos "BTCUSDT" 90,
          RMOp.load]).rm.daily_stats.date = "2026-10-12" := by
  have hup : strUpper "BUY" = "BUY" := by decide
  refine ⟨?_, ?_, ?_⟩ <;>
    norm_num [staleSnapshotStart, runOps, stepOp, save_state, load_state,
      close_position, dictGet?, dictErase, dictInsert, upsertDaily,
      dailyRowOf, posRowOf, posOfRow, initDB, List.find?, List.eraseP,
      List.foldl, hup]

/-- C5 (amended): the ledger invariant — unique open position per symbol,
`total_trades = wins + losses` in memory and in every persisted daily row —
holds in the fresh state and is preserved by every operation; and
`current_drawdown` is non-decreasing under `can_open_position`,
`open_position`, `close_position` and `save_state`, while `load_state`
resets it to the persisted snapshot's value, which can be lower than the
in-memory value when the ledger advanced after the last save. -/
theorem ledger_invariant_preservation (cfg : RiskConfig) (today : String)
    (st : SysState) (op : RMOp) (h : ledgerInv st) :
    ledgerInv (initSys today) ∧
    ledgerInv (stepOp cfg today st op) ∧
    (op ≠ RMOp.load →
      st.rm.daily_stats.current_drawdown ≤
        (stepOp cfg today st op).rm.daily_stats.current_drawdown) := by
  obtain ⟨hpos, hstats, hdb⟩ := h
  refine ⟨⟨⟨by simp [initSys, initRMState], by simp [initSys, initRMState]⟩,
    by simp [initSys, initRMState, statsWF], by
      intro r hr
      simp [initSys, initDB] at hr⟩, ?_, ?_⟩
  · cases op with
    | canOpen symbol =>
      refine ⟨?_, ?_, hdb⟩
      · simp only [stepOp, can_open_position]
        split_ifs <;> exact hpos
      · simp only [stepOp, can_open_position]
        split_ifs <;> exact hstats
    | openPos symbol direction e q sl tp now =>
      exact ⟨positionsWF_dictInsert _ symbol _ hpos rfl, hstats, hdb⟩
    | closePos symbol p =>
      refine ⟨?_, (close_position_effects st.rm symbol p hstats).1, hdb⟩
      simp only [stepOp, close_position]
      rcases hg : dictGet? st.rm.open_positions symbol with _ | pos
      · exact hpos
      · exact positionsWF_dictErase _ symbol hpos
    | save =>
      refine ⟨hpos, hstats, ?_⟩
      simp only [stepOp, save_state]
      split_ifs with hc
      · intro r hr
        rcases mem_of_mem_upsertDaily _ _ r hr with h' | h'
        · rw [h']; exact hstats
        · exact hdb r h'
      · exact hdb
    | load =>
      refine ⟨?_, ?_, hdb⟩
      · simp only [stepOp, load_state]
        split_ifs with hc
        · rcases hf : st.db.daily_stats.find? (fun r => r.date == today) with
            _ | row <;>
            · simp only [hf]
              exact positionsWF_foldl_rows st.db.open_positions []
                ⟨List.nodup_nil, by intro kv hm; simp at hm⟩
        · exact hpos
      · simp only [stepOp, load_state]
        split_ifs with hc
        · rcases hf : st.db.daily_stats.find? (fun r => r.date == today) with
            _ | row
          · simp only [hf, statsWF]
          · simp only [hf, statsWF]
            exact hdb row (List.mem_of_find?_eq_some hf)
        · exact hstats
  · intro hop
    cases op with
    | canOpen symbol =>
      simp only [stepOp, can_open_position]
      split_ifs <;> exact le_refl _
    | openPos symbol direction e q sl tp now => exact le_refl _
    | closePos symbol p =>
      exact (close_position_effects st.rm symbol p hstats).2
    | save => exact le_refl _
    | load => exact absurd rfl hop

/-- Witness for `ledger_invariant_preservation`: a losing close of the only
open position, starting from a well-formed one-position state. -/
theorem ledger_invariant_preservation_witness :
    ledgerInv staleSnapshotStart ∧
    ledgerInv
      (stepOp {} "2026-10-12" staleSnapshotStart
        (RMOp.closePos "BTCUSDT" 90)) :=
  ⟨⟨⟨by decide, by decide⟩, rfl, by
      intro r hr
      simp [staleSnapshotStart, initDB] at hr⟩,
    (ledger_invariant_preservation {} "2026-10-12" staleSnapshotStart
        (RMOp.closePos "BTCUSDT" 90)
        ⟨⟨by decide, by decide⟩, rfl, by
          intro r hr
          simp [staleSnapshotStart, initDB] at hr⟩).2.1⟩

end RiskManager

namespace MicrostructureAnalyzer

/-- An L2 snapshot as `calculate_ofi` receives it: price/volume level lists
for both sides, best level first.  A missing side and an empty side are both
falsy in `orderbook.get(...)` and are modelled by the empty list. -/
structure OB where
  bids : List (ℚ × ℚ)
  asks : List (ℚ × ℚ)
deriving DecidableEq, Repr

/-- The mutable analyzer state of `MicrostructureAnalyzer`. -/
structure MicroState where
  prev_best_bid : Option ℚ
  prev_best_ask : Option ℚ
  prev_bid_vol : ℚ
  prev_ask_vol : ℚ
  ofi_history : List ℚ
deriving DecidableEq, Repr

/-- `MicrostructureAnalyzer.__init__`. -/
def initMicroState : MicroState :=
  { prev_best_bid := none, prev_best_ask := none, prev_bid_vol := 0,
    prev_ask_vol := 0, ofi_history := [] }

/-- `self.max_history`. -/
def max_history : ℕ := 100

/-- `reset()` (lines 32–41): clears the previous L1 snapshot and the OFI
history. -/
def reset (_ : MicroState) : MicroState := initMicroState

/-- `_update_prev(bb, bv, ba, av)`. -/
def _update_prev (s : MicroState) (bb bv ba av : ℚ) : MicroState :=
  { s with prev_best_bid := some bb, prev_bid_vol := bv,
           prev_best_ask := some ba, prev_ask_vol := av }

/-- `calculate_ofi(orderbook)` (lines 43–105): returns `0.0` on an empty or
missing book side; on the first snapshot stores it and returns `0.0`;
otherwise computes the Cont et al. imbalance `e_n - e_m`, updates the
previous snapshot, and appends the value to the rolling history capped at
`max_history` (oldest entry popped).  The `some`/`none` split on
`prev_best_ask` mirrors the `except` handler: comparing a float against
`None` raises, and the handler returns `0.0` with no state change. -/
def calculate_ofi (s : MicroState) (orderbook : OB) : ℚ × MicroState :=
  match orderbook.bids, orderbook.asks with
  | [], _ => (0, s)
  | _ :: _, [] => (0, s)
  | (best_bid, bid_vol) :: _, (best_ask, ask_vol) :: _ =>
    match s.prev_best_bid with
    | none => (0, _update_prev s best_bid bid_vol best_ask ask_vol)
    | some prev_bid =>
      match s.prev_best_ask with
      | none => (0, s)
      | some prev_ask =>
        let e_n :=
          if prev_bid < best_bid then bid_vol
          else if best_bid = prev_bid then bid_vol - s.prev_bid_vol
          else -s.prev_bid_vol
        let e_m :=
          if best_ask < prev_ask then ask_vol
          else if best_ask = prev_ask then ask_vol - s.prev_ask_vol
          else -s.prev_ask_vol
        let ofi := e_n - e_m
        let s1 := _update_prev s best_bid bid_vol best_ask ask_vol
        let h := s1.ofi_history ++ [ofi]
        let h := if max_history < h.length then h.tail else h
        (ofi, { s1 with ofi_history := h })

/-- The bid-side contribution as the claim states it: new aggressive buy
interest when the best bid rose, the size delta when unchanged, withdrawal
of the old size when it fell. -/
def bidContribution (prev_price prev_vol new_price new_vol : ℚ) : ℚ :=
  if prev_price < new_price then new_vol
  else if new_price = prev_price then new_vol - prev_vol
  else -prev_vol

/-- The ask-side contribution as the claim states it (a falling ask price
is aggressive selling). -/
def askContribution (prev_price prev_vol new_price new_vol : ℚ) : ℚ :=
  if new_price < prev_price then new_vol
  else if new_price = prev_price then new_vol - prev_vol
  else -prev_vol

theorem tail_append_singleton {α : Type} (h : List α) (x : α)
    (hne : h ≠ []) : (h ++ [x]).tail = h.tail ++ [x] := by
  cases h with
  | nil => exact absurd rfl hne
  | cons y ys => rfl

/-- C8: on a non-first call with both book sides populated, the returned
value is `e_n - e_m` with the claimed case analysis on each side — in
particular a best bid moving from `(100, 2)` to `(101, 3)` contributes
`e_n = 3` — and the raw value is appended to the rolling history, which
stays bounded at `100` entries with the oldest dropped. -/
theorem ofi_step_formula (s : MicroState) (ob : OB)
    (prev_bid prev_ask best_bid bid_vol best_ask ask_vol : ℚ)
    (restb resta : List (ℚ × ℚ))
    (hpb : s.prev_best_bid = some prev_bid)
    (hpa : s.prev_best_ask = some prev_ask)
    (hb : ob.bids = (best_bid, bid_vol) :: restb)
    (ha : ob.asks = (best_ask, ask_vol) :: resta)
    (hlen : s.ofi_history.length ≤ 100) :
    (calculate_ofi s ob).1 =
      bidContribution prev_bid s.prev_bid_vol best_bid bid_vol -
        askContribution prev_ask s.prev_ask_vol best_ask ask_vol ∧
    bidContribution 100 2 101 3 = 3 ∧
    (calculate_ofi s ob).2.ofi_history =
      (if s.ofi_history.length < 100 then
        s.ofi_history ++ [(calculate_ofi s ob).1]
      else s.ofi_history.tail ++ [(calculate_ofi s ob).1]) ∧
    (calculate_ofi s ob).2.ofi_history.length ≤ 100 := by
  obtain ⟨bids, asks⟩ := ob
  simp only at hb ha
  subst hb ha
  have hval : (calculate_ofi s
      { bids := (best_bid, bid_vol) :: restb,
        asks := (best_ask, ask_vol) :: resta }).1 =
      bidContribution prev_bid s.prev_bid_vol best_bid bid_vol -
        askContribution prev_ask s.prev_ask_vol best_ask ask_vol := by
    simp only [calculate_ofi, hpb, hpa, bidContribution, askContribution]
  have hcontrib : bidContribution 100 2 101 3 = 3 := by
    norm_num [bidContribution]
  have hhist : (calculate_ofi s
      { bids := (best_bid, bid_vol) :: restb,
        asks := (best_ask, ask_vol) :: resta }).2.ofi_history =
      (if max_history <
          (s.ofi_history ++
            [(calculate_ofi s
              { bids := (best_bid, bid_vol) :: restb,
                asks := (best_ask, ask_vol) :: resta }).1]).length then
        (s.ofi_history ++
          [(calculate_ofi s
            { bids := (best_bid, bid_vol) :: restb,
              asks := (best_ask, ask_vol) :: resta }).1]).tail
      else
        s.ofi_history ++
          [(calculate_ofi s
            { bids := (best_bid, bid_vol) :: restb,
              asks := (best_ask, ask_vol) :: resta }).1]) := by
    simp only [calculate_ofi, hpb, hpa, _update_prev]
  refine ⟨hval, hcontrib, ?_, ?_⟩
  · rw [hhist]
    rcases Nat.lt_or_ge s.ofi_history.length 100 with hlt | hge
    · rw [if_neg, if_pos hlt]
      simp only [max_history, List.length_append, List.length_singleton]
      omega
    · have h100 : s.ofi_history.length = 100 := le_antisymm hlen hge
      rw [if_pos, if_neg (by omega)]
      · exact tail_append_singleton _ _ (by
          intro hc
          rw [hc] at h100
          simp at h100)
      · simp only [max_history, List.length_append, List.length_singleton]
        omega
  · rw [hhist]
    rcases Nat.lt_or_ge s.ofi_history.length 100 with hlt | hge
    · rw [if_neg]
      · simp only [List.length_append, List.length_singleton]
        omega
      · simp only [max_history, List.length_append, List.length_singleton]
        omega
    · have h100 : s.ofi_history.length = 100 := le_antisymm hlen hge
      rw [if_pos]
      · rw [tail_append_singleton _ _ (by
          intro hc
          rw [hc] at h100
          simp at h100)]
        simp only [List.length_append, List.length_singleton,
          List.length_tail]
        omega
      · simp only [max_history, List.length_append, List.length_singleton]
        omega

/-- Witness for `ofi_step_formula`: previous L1 `(100, 2)/(203/2, 5)`, new
book `(101, 3)/(203/2, 5)` (the claim's scenario), empty history. -/
theorem ofi_step_formula_witness :
    ({ prev_best_bid := some 100, prev_best_ask := some (203 / 2),
       prev_bid_vol := 2, prev_ask_vol := 5,
       ofi_history := [] } : MicroState).prev_best_bid = some 100 ∧
    (calculate_ofi
        { prev_best_bid := some 100, prev_best_ask := some (203 / 2),
          prev_bid_vol := 2, prev_ask_vol := 5, ofi_history := [] }
        { bids := [(101, 3)], asks := [(203 / 2, 5)] }).1 =
      bidContribution 100 2 101 3 - askContribution (203 / 2) 5 (203 / 2) 5 :=
  ⟨rfl,
    (ofi_step_formula
      { prev_best_bid := some 100, prev_best_ask := some (203 / 2),
        prev_bid_vol := 2, prev_ask_vol := 5, ofi_history := [] }
      { bids := [(101, 3)], asks := [(203 / 2, 5)] }
      100 (203 / 2) 101 3 (203 / 2) 5 [] [] rfl rfl rfl rfl
      (by simp)).1⟩

/-- C9: the first `calculate_ofi` call after construction or `reset()`
returns `0.0` and only stores the snapshot (history untouched), and any
call with a missing or empty bids or asks side returns `0.0` with the state
unchanged instead of raising. -/
theorem ofi_first_call_and_empty_book (s t : MicroState) (ob obe : OB)
    (best_bid bid_vol best_ask ask_vol : ℚ) (restb resta : List (ℚ × ℚ))
    (hfirst : s.prev_best_bid = none)
    (hb : ob.bids = (best_bid, bid_vol) :: restb)
    (ha : ob.asks = (best_ask, ask_vol) :: resta)
    (hempty : obe.bids = [] ∨ obe.asks = []) :
    initMicroState.prev_best_bid = none ∧
    (reset t).prev_best_bid = none ∧
    (calculate_ofi s ob).1 = 0 ∧
    (calculate_ofi s ob).2 =
      _update_prev s best_bid bid_vol best_ask ask_vol ∧
    (calculate_ofi s ob).2.ofi_history = s.ofi_history ∧
    calculate_ofi t obe = (0, t) := by
  obtain ⟨bids, asks⟩ := ob
  simp only at hb ha
  subst hb ha
  refine ⟨rfl, rfl, ?_, ?_, ?_, ?_⟩
  · simp only [calculate_ofi, hfirst]
  · simp only [calculate_ofi, hfirst]
  · simp only [calculate_ofi, hfirst, _update_prev]
  · obtain ⟨ebids, easks⟩ := obe
    rcases hempty with he | he <;> simp only at he <;> subst he
    · simp only [calculate_ofi]
    · cases ebids with
      | nil => simp only [calculate_ofi]
      | cons l rest => simp only [calculate_ofi]

/-- Witness for `ofi_first_call_and_empty_book`: a fresh analyzer fed a
populated book, and an arbitrary analyzer state fed a book with an empty
ask side. -/
theorem ofi_first_call_and_empty_book_witness :
    initMicroState.prev_best_bid = none ∧
    (calculate_ofi initMicroState
        { bids := [(100, 2)], asks := [(101, 5)] }).1 = 0 ∧
    calculate_ofi
        { prev_best_bid := some 100, prev_best_ask := some 101,
          prev_bid_vol := 2, prev_ask_vol := 5, ofi_history := [3] }
        { bids := [(100, 2)], asks := [] } =
      (0,
        { prev_best_bid := some 100, prev_best_ask := some 101,
          prev_bid_vol := 2, prev_ask_vol := 5, ofi_history := [3] }) := by
  have h := ofi_first_call_and_empty_book initMicroState
    { prev_best_bid := some 100, prev_best_ask := some 101,
      prev_bid_vol := 2, prev_ask_vol := 5, ofi_history := [3] }
    { bids := [(100, 2)], asks := [(101, 5)] }
    { bids := [(100, 2)], asks := [] }
    100 2 101 5 [] [] rfl rfl rfl (Or.inr rfl)
  exact ⟨h.1, h.2.2.1, h.2.2.2.2.2⟩

end MicrostructureAnalyzer

namespace Orchestrator

/-- One step of an orchestrator routine in `main.py`, abstracted to what
matters for persistence: a ledger mutation (`RiskManager.open_position` /
`close_position`), a durable persist (`RiskManager.save_state`), or any
other suspension point (an `await` on a broadcast, balance query, order
placement or sleep). -/
inductive OStep where
  | mutateOpen
  | mutateClose
  | persist
  | suspend
deriving DecidableEq, Repr

/-- `NexusPro.close_trade` (main.py lines 640–665): close the position in
the risk manager, then `await broadcast_log(...)` and
`await broadcast_stats(...)`.  No `save_state` call occurs. -/
def close_trade_steps : List OStep :=
  [OStep.mutateClose, OStep.suspend, OStep.suspend]

/-- The accepted-signal tail of `NexusPro.on_l2_update` (main.py lines
229–268): `await broadcast_log`, `await get_balance`,
`await get_available_balance`, `await place_maker_order_with_chase`, then
`RiskManager.open_position`, then `await broadcast_log`. -/
def on_l2_update_entry_steps : List OStep :=
  [OStep.suspend, OStep.suspend, OStep.suspend, OStep.suspend,
    OStep.mutateOpen, OStep.suspend]

/-- The execution tail of `NexusPro.execute_trade` (main.py lines 547–596):
`await get_balance`, `await get_available_balance`,
`await place_limit_order`, then `RiskManager.open_position`, then
`await broadcast_log`. -/
def execute_trade_steps : List OStep :=
  [OStep.suspend, OStep.suspend, OStep.suspend, OStep.mutateOpen,
    OStep.suspend]

/-- Is this step a ledger mutation? -/
def isMutation : OStep → Bool
  | .mutateOpen => true
  | .mutateClose => true
  | _ => false

/-- Does a persist occur before the next suspension point (scanning
forward)? -/
def persistBeforeSuspend : List OStep → Bool
  | [] => false
  | .persist :: _ => true
  | .suspend :: _ => false
  | _ :: rest => persistBeforeSuspend rest

/-- The claim's discipline: after every ledger mutation, a persist occurs
before the next suspension point. -/
def persistDiscipline : List OStep → Bool
  | [] => true
  | step :: rest =>
    (!isMutation step || persistBeforeSuspend rest) && persistDiscipline rest

/-- C2, evaluated on the orchestrator's code paths: none of the three
ledger-mutating routines of `main.py` persists before its next suspension
point — `close_trade` suspends on `broadcast_log` right after
`close_position`, and both open paths suspend on `broadcast_log` right
after `open_position`, with `save_state` never invoked. -/
theorem mutations_not_persisted_before_suspension :
    persistDiscipline close_trade_steps = false ∧
    persistDiscipline on_l2_update_entry_steps = false ∧
    persistDiscipline execute_trade_steps = false := by
  refine ⟨rfl, rfl, rfl⟩

end Orchestrator

namespace OrderExecutor

/-- An environment whose price callback returns nothing on the first
iteration and a live price from then on, whose limit placements always
succeed, and whose orders never fill within the poll window. -/
def priceMissEnv : ChaseEnv :=
  { bestPrice := fun i => if i = 0 then none else some 100,
    limitOrder := fun i _ => some { orderId := i, price := 100 },
    statuses := fun _ => ["NEW"],
    marketResult := some { orderId := 999, price := 100 } }

/-- C6 counterexample: with `max_retries = 2` against `priceMissEnv`, the
price is available from iteration 1 onwards, yet only one limit placement
happens — the missed-price iteration consumed one of the two attempts
instead of being retried at the same attempt count. -/
theorem chase_price_miss_consumes_attempt :
    priceMissEnv.bestPrice 0 = none ∧
    priceMissEnv.bestPrice 1 = some 100 ∧
    priceMissEnv.bestPrice 2 = some 100 ∧
    (place_maker_order_with_chase priceMissEnv 2).placements = 1 ∧
    (place_maker_order_with_chase priceMissEnv 2).priceMisses = 1 := by
  refine ⟨rfl, rfl, rfl, rfl, rfl⟩

theorem chaseLoop_budget (env : ChaseEnv) :
    ∀ fuel i,
      (chaseLoop env i fuel).placements + (chaseLoop env i fuel).priceMisses
          ≤ fuel ∧
      ((∃ o, (chaseLoop env i fuel).outcome = .filled o) ∨
        (chaseLoop env i fuel).placements +
          (chaseLoop env i fuel).priceMisses = fuel) := by
  intro fuel
  induction fuel with
  | zero => intro i; exact ⟨Nat.le_refl 0, Or.inr rfl⟩
  | succ n ih =>
    intro i
    rcases h : env.bestPrice i with _ | p
    · have := ih (i + 1)
      constructor
      · simp only [chaseLoop, h]
        omega
      · rcases this.2 with ⟨o, ho⟩ | heq
        · refine Or.inl ⟨o, ?_⟩
          simp only [chaseLoop, h]
          exact ho
        · refine Or.inr ?_
          simp only [chaseLoop, h]
          omega
    · rcases h2 : env.limitOrder i p with _ | o
      · have := ih (i + 1)
        constructor
        · simp only [chaseLoop, h, h2]
          omega
        · rcases this.2 with ⟨o', ho⟩ | heq
          · refine Or.inl ⟨o', ?_⟩
            simp only [chaseLoop, h, h2]
            exact ho
          · refine Or.inr ?_
            simp only [chaseLoop, h, h2]
            omega
      · by_cases hp : pollLoop (env.statuses i) = true
        · constructor
          · simp only [chaseLoop, h, h2, hp, if_true]
            omega
          · refine Or.inl ⟨o, ?_⟩
            simp only [chaseLoop, h, h2, hp, if_true]
        · rw [Bool.not_eq_true] at hp
          have := ih (i + 1)
          constructor
          · simp only [chaseLoop, h, h2, hp, Bool.false_eq_true, if_false]
            omega
          · rcases this.2 with ⟨o', ho⟩ | heq
            · refine Or.inl ⟨o', ?_⟩
              simp only [chaseLoop, h, h2, hp, Bool.false_eq_true, if_false]
              exact ho
            · refine Or.inr ?_
              simp only [chaseLoop, h, h2, hp, Bool.false_eq_true, if_false]
              omega

/-- C6 (amended): a no-price iteration waits briefly and then moves to the
NEXT attempt, consuming the counter: across any chase call, limit
placements plus missed-price iterations never exceed `max_retries`, and
unless a fill ended the loop early they sum to exactly `max_retries` — so
after a missed-price iteration the caller has one fewer limit-placement
attempt left, not the full budget. -/
theorem chase_attempt_budget (env : ChaseEnv) (max_retries : Nat) :
    (place_maker_order_with_chase env max_retries).placements +
        (place_maker_order_with_chase env max_retries).priceMisses ≤
      max_retries ∧
    ((∃ o, (place_maker_order_with_chase env max_retries).outcome =
        .filled o) ∨
      (place_maker_order_with_chase env max_retries).placements +
        (place_maker_order_with_chase env max_retries).priceMisses =
        max_retries) :=
  chaseLoop_budget env max_retries 0

end OrderExecutor

end NexusPro
